import Mathlib

/-!
Verification development for the jsonnet-armed evaluation-orchestration
subsystem (cache-key derivation, fresh/stale cache lookup, stale fallback,
deadline-bounded execution, atomic and change-aware output writing).

The Go sources are shallowly embedded: pure computations (`GenerateCacheKey`,
`shouldSkipWrite`, JSON marshaling of the `CLI` struct, SHA-256) become Lean
functions on `Nat`-valued bytes; filesystem- and scheduler-dependent code
(`Cache.GetWithStale`, `writeFileAtomic`, `CLI.processRequest`, `CLI.run`)
becomes explicit state passing, with the environment-dependent outcomes of
the individual system calls (read errors, step failures, the select race)
supplied as explicit oracle arguments.
-/

set_option maxRecDepth 1000000
set_option maxHeartbeats 4000000

namespace Armed

/-! ## 32-bit words as `Nat` with explicit truncation, and SHA-256

Embedding of Go's `crypto/sha256` as used by `GenerateCacheKey`
(src/cache.go:48-72) and `shouldSkipWrite` (src/main.go:327-337).
Bytes are `Nat` values < 256; 32-bit words are `Nat` values reduced
mod 2^32 wherever overflow matters. -/

def w32 (n : Nat) : Nat := n % 4294967296

/-- Rotate a 32-bit word right by `k` bits. -/
def rotr32 (k x : Nat) : Nat := x / 2 ^ k + x % 2 ^ k * 2 ^ (32 - k)

/-- Bitwise complement of a 32-bit word (valid for `x < 2^32`). -/
def not32 (x : Nat) : Nat := 4294967295 - x

/-- The SHA-256 round constants (FIPS 180-4: the fractional parts of the
cube roots of the first 64 primes), written in decimal. -/
def sha256K : List Nat :=
  [1116352408, 1899447441, 3049323471, 3921009573, 961987163,
   1508970993, 2453635748, 2870763221, 3624381080, 310598401,
   607225278, 1426881987, 1925078388, 2162078206, 2614888103,
   3248222580, 3835390401, 4022224774, 264347078, 604807628,
   770255983, 1249150122, 1555081692, 1996064986, 2554220882,
   2821834349, 2952996808, 3210313671, 3336571891, 3584528711,
   113926993, 338241895, 666307205, 773529912, 1294757372,
   1396182291, 1695183700, 1986661051, 2177026350, 2456956037,
   2730485921, 2820302411, 3259730800, 3345764771, 3516065817,
   3600352804, 4094571909, 275423344, 430227734, 506948616,
   659060556, 883997877, 958139571, 1322822218, 1537002063,
   1747873779, 1955562222, 2024104815, 2227730452, 2361852424,
   2428436474, 2756734187, 3204031479, 3329325298]

/-- The SHA-256 initial hash state (fractional parts of the square roots of
the first 8 primes), in decimal. -/
def sha256H0 : List Nat :=
  [1779033703, 3144134277, 1013904242, 2773480762,
   1359893119, 2600822924, 528734635, 1541459225]

/-- Big-endian bytes of `n`, `k` bytes wide. -/
def beBytes : Nat → Nat → List Nat
  | 0, _ => []
  | k + 1, n => beBytes k (n / 256) ++ [n % 256]

/-- Group bytes into big-endian 32-bit words. -/
def toWordsBE : List Nat → List Nat
  | b0 :: b1 :: b2 :: b3 :: rest =>
      (b0 * 16777216 + b1 * 65536 + b2 * 256 + b3) :: toWordsBE rest
  | _ => []

/-- SHA-256 padding: append `0x80`, zeros to 56 mod 64, then the 64-bit
big-endian bit length. -/
def sha256Pad (msg : List Nat) : List Nat :=
  msg ++ 0x80 :: List.replicate ((119 - msg.length % 64) % 64) 0
      ++ beBytes 8 (msg.length * 8)

/-- Extend the 16 message words to 64: the accumulator holds the words most
recent first; `n` more words remain to be produced. -/
def sha256Extend : List Nat → Nat → List Nat
  | acc, 0 => acc.reverse
  | acc, n + 1 =>
      let s0 :=
        let x := acc.getD 14 0
        (rotr32 7 x) ^^^ (rotr32 18 x) ^^^ (x / 2 ^ 3)
      let s1 :=
        let x := acc.getD 1 0
        (rotr32 17 x) ^^^ (rotr32 19 x) ^^^ (x / 2 ^ 10)
      sha256Extend (w32 (acc.getD 15 0 + s0 + acc.getD 6 0 + s1) :: acc) n

/-- The per-round working state `a..h`. -/
structure Sha256St where
  a : Nat
  b : Nat
  c : Nat
  d : Nat
  e : Nat
  f : Nat
  g : Nat
  h : Nat
deriving Repr, DecidableEq

/-- One SHA-256 compression round for round constant `k` and message word `w`. -/
def sha256Round (st : Sha256St) (kw : Nat × Nat) : Sha256St :=
  let s1 := (rotr32 6 st.e) ^^^ (rotr32 11 st.e) ^^^ (rotr32 25 st.e)
  let ch := (st.e &&& st.f) ^^^ (not32 st.e &&& st.g)
  let temp1 := w32 (st.h + s1 + ch + kw.1 + kw.2)
  let s0 := (rotr32 2 st.a) ^^^ (rotr32 13 st.a) ^^^ (rotr32 22 st.a)
  let maj := (st.a &&& st.b) ^^^ (st.a &&& st.c) ^^^ (st.b &&& st.c)
  let temp2 := w32 (s0 + maj)
  { a := w32 (temp1 + temp2), b := st.a, c := st.b, d := st.c,
    e := w32 (st.d + temp1), f := st.e, g := st.f, h := st.g }

/-- Compress one 64-byte chunk (given as 16 words) into the hash state. -/
def sha256Compress (hs : List Nat) (ws : List Nat) : List Nat :=
  let sched := sha256Extend ws.reverse 48
  let st0 : Sha256St :=
    { a := hs.getD 0 0, b := hs.getD 1 0, c := hs.getD 2 0, d := hs.getD 3 0,
      e := hs.getD 4 0, f := hs.getD 5 0, g := hs.getD 6 0, h := hs.getD 7 0 }
  let st := (sha256K.zip sched).foldl sha256Round st0
  [w32 (hs.getD 0 0 + st.a), w32 (hs.getD 1 0 + st.b),
   w32 (hs.getD 2 0 + st.c), w32 (hs.getD 3 0 + st.d),
   w32 (hs.getD 4 0 + st.e), w32 (hs.getD 5 0 + st.f),
   w32 (hs.getD 6 0 + st.g), w32 (hs.getD 7 0 + st.h)]

/-- Split a byte list into 64-byte chunks; the fuel argument (instantiated
with the list length, which strictly dominates the number of chunks) makes
the recursion structural so that it reduces inside the kernel. -/
def chunks64F : Nat → List Nat → List (List Nat)
  | 0, _ => []
  | _, [] => []
  | fuel + 1, l => l.take 64 :: chunks64F fuel (l.drop 64)

/-- Split a byte list into 64-byte chunks. -/
def chunks64 (l : List Nat) : List (List Nat) := chunks64F l.length l

/-- SHA-256 digest of a byte string, as 32 bytes. -/
def sha256 (msg : List Nat) : List Nat :=
  let hs := (chunks64 (sha256Pad msg)).foldl
    (fun hs ch => sha256Compress hs (toWordsBE ch)) sha256H0
  hs.flatMap (beBytes 4)

/-- Lowercase hex digit characters. -/
def hexDigit (n : Nat) : Char :=
  if n < 10 then Char.ofNat (48 + n) else Char.ofNat (87 + n)

/-- Lowercase hex encoding of a byte string, as Go's `hex.EncodeToString`. -/
def hexEncode (bs : List Nat) : String :=
  ⟨bs.flatMap (fun b => [hexDigit (b / 16), hexDigit (b % 16)])⟩

/-! ## Decimal rendering (Go `strconv` / `encoding/json` numbers)

`time.Duration` values are marshaled by `encoding/json` as decimal int64
literals. Rendered least-significant-digit first with a fuel argument (any
fuel ≥ the digit count works; we pass `n` itself) to keep the recursion
structural. -/

/-- ASCII decimal digits of `n`, least significant first (`n = 0` gives `[]`). -/
def natDecAux : Nat → Nat → List Nat
  | 0, _ => []
  | _, 0 => []
  | fuel + 1, n => (n % 10 + 48) :: natDecAux fuel (n / 10)

/-- ASCII bytes of the decimal rendering of `n`, most significant first. -/
def natDecBytes (n : Nat) : List Nat :=
  if n = 0 then [48] else (natDecAux n n).reverse

/-- ASCII bytes of the decimal rendering of an int64 value (`-` sign plus
magnitude), as produced by `encoding/json` for `time.Duration` fields. -/
def intDecBytes (i : Int) : List Nat :=
  if i < 0 then 45 :: natDecBytes i.natAbs else natDecBytes i.natAbs

/-! ## UTF-8 and Go `encoding/json` string escaping

`json.Marshal` writes strings quoted, escaping `"`, `\`, the control
characters (named escapes for `\n`, `\r`, `\t`, `\u00xx` for the rest),
the HTML-sensitive `&`, `<`, `>` (escaped by default), and U+2028/U+2029;
all other characters are emitted as their UTF-8 bytes. -/

/-- UTF-8 bytes of the code point `n`. -/
def utf8Char (n : Nat) : List Nat :=
  if n < 128 then [n]
  else if n < 2048 then [192 + n / 64, 128 + n % 64]
  else if n < 65536 then [224 + n / 4096, 128 + n / 64 % 64, 128 + n % 64]
  else [240 + n / 262144, 128 + n / 4096 % 64, 128 + n / 64 % 64, 128 + n % 64]

/-- UTF-8 bytes of a string. -/
def strBytes (s : String) : List Nat := s.data.flatMap (fun c => utf8Char c.toNat)

/-- ASCII code of the lowercase hex digit for `d < 16`. -/
def hexByte (d : Nat) : Nat := if d < 10 then 48 + d else 87 + d

/-- The bytes Go's JSON encoder emits for one character inside a quoted
string (escape-HTML mode, the `json.Marshal` default). -/
def escChar (c : Char) : List Nat :=
  let n := c.toNat
  if n = 34 then [92, 34]
  else if n = 92 then [92, 92]
  else if n = 10 then [92, 110]
  else if n = 13 then [92, 114]
  else if n = 9 then [92, 116]
  else if n < 32 ∨ n = 38 ∨ n = 60 ∨ n = 62 then
    [92, 117, 48, 48, hexByte (n / 16), hexByte (n % 16)]
  else if n = 8232 ∨ n = 8233 then
    [92, 117, 50, 48, 50, hexByte (n % 16)]
  else utf8Char n

/-- A Go-JSON quoted string: opening quote, escaped body, closing quote. -/
def jsonQuote (s : String) : List Nat := 34 :: s.data.flatMap escChar ++ [34]

/-- `true` / `false` as emitted for bool fields. -/
def boolBytes (b : Bool) : List Nat := if b then [116, 114, 117, 101] else [102, 97, 108, 115, 101]

/-- Join pre-rendered JSON object members with `,` separators. -/
def joinComma : List (List Nat) → List Nat
  | [] => []
  | [x] => x
  | x :: xs => x ++ 44 :: joinComma xs

/-- Ordering of object members by key, as Go sorts map keys before encoding. -/
def keyLE (a b : String × String) : Prop := a.1 ≤ b.1

instance : DecidableRel keyLE := fun a b => inferInstanceAs (Decidable (a.1 ≤ b.1))

/-- Go's `json.Marshal` for a `map[string]string`: `null` for the nil map,
otherwise an object whose members are sorted by key (Go sorts map keys
before encoding, which is what makes the encoding independent of map
iteration order). Modelled on an association list. -/
def jsonMapBytes (l : List (String × String)) : List Nat :=
  match l with
  | [] => [110, 117, 108, 108]
  | _ =>
    let sorted := List.insertionSort keyLE l
    123 :: joinComma (sorted.map (fun kv => jsonQuote kv.1 ++ 58 :: jsonQuote kv.2)) ++ [125]

/-! ## The `CLI` configuration and `GenerateCacheKey`

Embedding of the `CLI` struct (src/cli.go:11-32; only the exported fields,
which are exactly what `json.Marshal` serializes — the unexported `writer`,
`cacheKey` and `functions` fields are skipped by the encoder) and of
`Cache.GenerateCacheKey` (src/cache.go:47-73). `kong.VersionFlag` is a bool
type and marshals as a JSON bool. `time.Duration` is int64 nanoseconds,
modelled as `Int`. -/

structure CLI where
  Output : String
  Stdout : Bool
  WriteIfChanged : Bool
  ExtStr : List (String × String)
  ExtCode : List (String × String)
  Timeout : Int
  Cache : Int
  Stale : Int
  Version : Bool
  Filename : String
deriving Repr, DecidableEq

/-- The bytes of `json.Marshal(cli)`: an object with the exported fields in
declaration order. -/
def marshalCLI (cli : CLI) : List Nat :=
  strBytes "\x7b\"Output\":" ++ jsonQuote cli.Output
  ++ strBytes ",\"Stdout\":" ++ boolBytes cli.Stdout
  ++ strBytes ",\"WriteIfChanged\":" ++ boolBytes cli.WriteIfChanged
  ++ strBytes ",\"ExtStr\":" ++ jsonMapBytes cli.ExtStr
  ++ strBytes ",\"ExtCode\":" ++ jsonMapBytes cli.ExtCode
  ++ strBytes ",\"Timeout\":" ++ intDecBytes cli.Timeout
  ++ strBytes ",\"Cache\":" ++ intDecBytes cli.Cache
  ++ strBytes ",\"Stale\":" ++ intDecBytes cli.Stale
  ++ strBytes ",\"Version\":" ++ boolBytes cli.Version
  ++ strBytes ",\"Filename\":" ++ jsonQuote cli.Filename
  ++ strBytes "\x7d"

/-- Modelled behavior of Go's `filepath.Abs` as used at src/cache.go:62:
absolute paths are returned unchanged, relative ones are resolved against
the process working directory `cwd` (lexical cleaning of `.`/`..` segments
is not modelled; every claim compares requests with identical filenames,
for which the simplification is invisible). -/
def absPath (cwd fn : String) : String :=
  if fn.startsWith "/" then fn else cwd ++ "/" ++ fn

/-- The byte string `Cache.GenerateCacheKey` feeds to SHA-256
(src/cache.go:47-73): the marshaled CLI configuration, then — for file
sources only, not stdin — the absolute source path, then the raw source
content bytes. -/
def cacheKeyPreimage (cwd : String) (cli : CLI) (content : List Nat) : List Nat :=
  marshalCLI cli
    ++ (if cli.Filename = "-" then [] else strBytes (absPath cwd cli.Filename))
    ++ content

/-- `Cache.GenerateCacheKey` (src/cache.go:47-73): the lowercase-hex SHA-256
digest of the pre-image. (The Go function's error returns — a marshal or
`filepath.Abs` failure — cannot occur in this model; a key-generation
failure enters the orchestration model as an explicit oracle outcome.) -/
def GenerateCacheKey (cwd : String) (cli : CLI) (content : List Nat) : String :=
  hexEncode (sha256 (cacheKeyPreimage cwd cli content))

instance : IsTotal (String × String) keyLE := ⟨fun a b => le_total a.1 b.1⟩

instance : IsTrans (String × String) keyLE := ⟨fun _ _ _ h₁ h₂ => le_trans h₁ h₂⟩

instance : IsAntisymm (String × String) (fun a b => a.1 < b.1) :=
  ⟨fun _ _ h₁ h₂ => absurd h₂ (lt_asymm h₁)⟩

/-! ## The cache store: `Cache.GetWithStale`

Embedding of src/cache.go:87-136 for a single key. The filesystem entry is
`Option (content, modTime)`; the call returns `(content, isStale, exists)`
plus the entry's state after the call (the code removes a fully expired
entry as a side effect). Durations and times are int64 nanoseconds. I/O
errors while reading the entry are not modelled: the code logs them and
reports a miss. -/

structure CacheCfg where
  ttl : Int
  staleTTL : Int
deriving Repr, DecidableEq

def GetWithStale (c : CacheCfg) (entry : Option (String × Int)) (now : Int) :
    String × Bool × Bool × Option (String × Int) :=
  if c.ttl = 0 then ("", false, false, entry)
  else
    match entry with
    | none => ("", false, false, none)
    | some (content, modTime) =>
      let age := now - modTime
      if age ≤ c.ttl then (content, false, true, entry)
      else if 0 < c.staleTTL ∧ age ≤ c.staleTTL then (content, true, true, entry)
      else ("", false, false, none)

/-! ## The atomic file writer and change-aware output

Embedding of `writeFileAtomic` (src/main.go:342-389), `shouldSkipWrite`
(src/main.go:304-338) and the file-destination path of `CLI.writeOutput`
(src/main.go:288-301). The observable filesystem state is the target
file's content and modification time plus the pending temporary file; which
fallible system calls succeed is an explicit oracle. Permission bits play
no role in the claims and are not modelled; `os.Remove` of the temporary
file is modelled as succeeding. -/

structure FileSt where
  target : Option (List Nat)
  targetMtime : Int
  temp : Option (List Nat)
deriving Repr, DecidableEq

/-- Which of `writeFileAtomic`'s fallible steps succeed: temp creation,
write, sync, chmod, close, rename (in the code's order). -/
structure AtomicOracle where
  createOK : Bool
  writeOK : Bool
  syncOK : Bool
  chmodOK : Bool
  closeOK : Bool
  renameOK : Bool
deriving Repr, DecidableEq

/-- The all-steps-succeed oracle. -/
def oracleOK : AtomicOracle := ⟨true, true, true, true, true, true⟩

/-- `writeFileAtomic` (src/main.go:342-389): create a temp file in the
target's directory, write, sync, chmod, close, rename over the target.
On each failure the temp file is removed (the deferred close-and-remove up
to `Close`, the explicit `os.Remove` after a failed rename); the target is
only touched by the final rename. -/
def writeFileAtomic (st : FileSt) (data : List Nat) (o : AtomicOracle) (now : Int) :
    FileSt × Option String :=
  if !o.createOK then (st, some "create temp")
  else
    let st1 : FileSt := { st with temp := some [] }
    if !o.writeOK then ({ st1 with temp := none }, some "write")
    else
      let st2 : FileSt := { st1 with temp := some data }
      if !o.syncOK then ({ st2 with temp := none }, some "sync")
      else if !o.chmodOK then ({ st2 with temp := none }, some "chmod")
      else if !o.closeOK then ({ st2 with temp := none }, some "close")
      else if !o.renameOK then ({ st2 with temp := none }, some "rename")
      else ({ target := some data, targetMtime := now, temp := none }, none)

/-- `shouldSkipWrite` (src/main.go:304-338): skip iff the target exists,
its size equals the new content's, and the SHA-256 digests agree. (The
code's stat/open/read error paths all force a write and are not modelled.) -/
def shouldSkipWrite (existing : Option (List Nat)) (newData : List Nat) : Bool :=
  match existing with
  | none => false
  | some old =>
    if old.length ≠ newData.length then false
    else sha256 old == sha256 newData

/-- `CLI.writeOutput` (src/main.go:288-301; the field is spelled
`OutputFile` there and `Output` in the claimed cli.go revision — the same
output-destination string). Returns the filesystem state, the error, and
whether the atomic writer was invoked. The no-destination path writes to
the caller's stream (outcome supplied by the `writerErr` oracle) and never
touches the filesystem. -/
def writeOutput (cli : CLI) (st : FileSt) (jsonStr : String) (o : AtomicOracle)
    (now : Int) (writerErr : Option String) : FileSt × Option String × Bool :=
  if cli.Output ≠ "" then
    let data := strBytes jsonStr
    if cli.WriteIfChanged && shouldSkipWrite st.target data then (st, none, false)
    else
      let res := writeFileAtomic st data o now
      (res.1, res.2, true)
  else (st, writerErr, false)

/-! ## The orchestration loop: `CLI.processRequest` and `CLI.run`

Embedding of src/main.go:132-251. The environment-dependent outcome of
each step (input read, key generation, cache lookup, evaluation, cache
persist, output write) is an explicit oracle field, so the control flow is
a pure function of them; warnings logged via `slog.Warn` are modelled as a
list of events. -/

instance : DecidableEq (Except String String) := fun x y =>
  match x, y with
  | .ok a, .ok b =>
    if h : a = b then isTrue (by rw [h]) else isFalse (fun hc => h (Except.ok.inj hc))
  | .error a, .error b =>
    if h : a = b then isTrue (by rw [h]) else isFalse (fun hc => h (Except.error.inj hc))
  | .ok _, .error _ => isFalse (fun hc => Except.noConfusion hc)
  | .error _, .ok _ => isFalse (fun hc => Except.noConfusion hc)

structure RunEnv where
  inputErr : Option String
  keygen : Except String String
  lookup : String × Bool × Bool
  evalResult : Except String String
  setErr : Option String
  writeErr : Option String
deriving Repr, DecidableEq

inductive LogEvent where
  | keygenFailed (err : String)
  | staleFallback (evalErr : String)
  | cacheSetFailed (err : String)
deriving Repr, DecidableEq

structure RunResult where
  jsonStr : String
  err : Option String
deriving Repr, DecidableEq

/-- src/main.go:224-251: evaluate; on failure fall back to non-empty stale
content (logging a warning) else propagate; on success persist to the cache
when a cache key was stored (a `Set` failure is logged, not surfaced), then
deliver. `cacheKey = some k` models the code's non-empty `cli.cacheKey`
(keys are 64 hex digits, never empty). -/
def evalAndDeliver (cacheKey : Option String) (staleContent : String) (env : RunEnv) :
    RunResult × List LogEvent :=
  match env.evalResult with
  | .error e =>
    if staleContent ≠ "" then
      ({ jsonStr := staleContent, err := env.writeErr }, [.staleFallback e])
    else
      ({ jsonStr := "", err := some e }, [])
  | .ok jsonStr =>
    let setLogs :=
      match cacheKey, env.setErr with
      | some _, some se => [LogEvent.cacheSetFailed se]
      | _, _ => []
    ({ jsonStr := jsonStr, err := env.writeErr }, setLogs)

/-- src/main.go:201-251 after a successful input read: the cache phase
(key generation, fresh/stale lookup with an early return on a fresh hit)
followed by `evalAndDeliver`. -/
def processRequestCore (cacheEnabled : Bool) (env : RunEnv) : RunResult × List LogEvent :=
  if cacheEnabled then
    match env.keygen with
    | .error e =>
      let res := evalAndDeliver none "" env
      (res.1, .keygenFailed e :: res.2)
    | .ok key =>
      match env.lookup with
      | (content, isStale, ex) =>
        if ex then
          if isStale = false then ({ jsonStr := content, err := env.writeErr }, [])
          else evalAndDeliver (some key) content env
        else evalAndDeliver (some key) "" env
  else evalAndDeliver none "" env

/-- `CLI.processRequest` (src/main.go:175-251): the input-read phase (stdin
is always read; a file source is read only when caching is enabled) wrapped
around the core. -/
def processRequest (cli : CLI) (cacheEnabled : Bool) (env : RunEnv) :
    RunResult × List LogEvent :=
  if cli.Filename = "-" then
    match env.inputErr with
    | some e => ({ jsonStr := "", err := some ("failed to read from stdin: " ++ e) }, [])
    | none => processRequestCore cacheEnabled env
  else if cacheEnabled then
    match env.inputErr with
    | some e => ({ jsonStr := "", err := some ("failed to read file: " ++ e) }, [])
    | none => processRequestCore cacheEnabled env
  else processRequestCore cacheEnabled env

/-! ## The deadline race: `CLI.run`'s select, and Go's duration formatting -/

/-- Go `time.Duration.String`'s `fmtFrac`: render up to `prec` fractional
digits of `u` least-significant first, omitting trailing zeros and
prefixing `.` when any digit remains; return the remaining integer part. -/
def fmtFracAux : Nat → Nat → Bool → List Char → List Char × Nat
  | 0, u, prnt, acc => (if prnt then '.' :: acc else acc, u)
  | p + 1, u, prnt, acc =>
    let digit := u % 10
    let prnt' := prnt || decide (digit ≠ 0)
    let acc' := if prnt' then Char.ofNat (48 + digit) :: acc else acc
    fmtFracAux p (u / 10) prnt' acc'

/-- Go `time.Duration.String`'s `fmtInt`: decimal digits. -/
def fmtInt (u : Nat) : List Char := (natDecBytes u).map Char.ofNat

/-- Go's `time.Duration.String`, as printed by the `%v` verb in the
timeout error message at src/main.go:164. -/
def goDurationString (d : Int) : String :=
  let u := d.natAbs
  let s :=
    if u < 1000000000 then
      if u = 0 then "0s"
      else if u < 1000 then String.mk (fmtInt u) ++ "ns"
      else if u < 1000000 then
        let fr := fmtFracAux 3 u false []
        String.mk (fmtInt fr.2 ++ fr.1) ++ "µs"
      else
        let fr := fmtFracAux 6 u false []
        String.mk (fmtInt fr.2 ++ fr.1) ++ "ms"
    else
      let fr := fmtFracAux 9 u false []
      let secPart := fmtInt (fr.2 % 60) ++ fr.1 ++ ['s']
      let u2 := fr.2 / 60
      let parts :=
        if 0 < u2 then
          let minPart := fmtInt (u2 % 60) ++ 'm' :: secPart
          let u3 := u2 / 60
          if 0 < u3 then fmtInt u3 ++ 'h' :: minPart else minPart
        else secPart
      String.mk parts
  if d < 0 then "-" ++ s else s

/-- The cause `ctx.Err()` reports when `ctx.Done()` fires. -/
inductive CtxErr where
  | deadlineExceeded
  | canceled
deriving Repr, DecidableEq

def ctxErrMsg : CtxErr → String
  | .deadlineExceeded => "context deadline exceeded"
  | .canceled => "context canceled"

/-- The select in `CLI.run` (src/main.go:158-167): if the background task's
result arrives first (`taskOutcome = some res`) return its error; otherwise
the context fired first — a deadline produces the timeout error naming the
configured duration, any other cause is returned as `ctx.Err()`. -/
def runSelect (timeout : Int) (taskOutcome : Option RunResult) (cause : CtxErr) :
    Option String :=
  match taskOutcome with
  | some res => res.err
  | none =>
    if cause = CtxErr.deadlineExceeded then
      some ("evaluation timed out after " ++ goDurationString timeout)
    else some (ctxErrMsg cause)

/-- `CLI.run` (src/main.go:132-168): the single background task runs the
whole of `processRequest` (input read, evaluation, delivery); `taskFinished`
says whether its completion won the select against the deadline. -/
def runCLI (cli : CLI) (cacheEnabled : Bool) (env : RunEnv) (taskFinished : Bool)
    (cause : CtxErr) : Option String :=
  runSelect cli.Timeout
    (if taskFinished then some (processRequest cli cacheEnabled env).1 else none) cause

/-- A concrete baseline request: stdin source, caching five minutes, no
destination, no variables. Used by the concrete counterexamples and
witnesses below. -/
def cliBase : CLI :=
  { Output := "", Stdout := false, WriteIfChanged := false, ExtStr := [], ExtCode := [],
    Timeout := 0, Cache := 300000000000, Stale := 0, Version := false, Filename := "-" }

/-! ## Injectivity of the decimal rendering -/

/-- Numeric value of a least-significant-first ASCII digit list; a left
inverse for `natDecAux`. -/
def valLSF : List Nat → Nat
  | [] => 0
  | d :: r => (d - 48) + 10 * valLSF r

theorem valLSF_natDecAux : ∀ fuel n, n ≤ fuel → valLSF (natDecAux fuel n) = n := by
  intro fuel
  induction fuel with
  | zero =>
    intro n h
    have : n = 0 := Nat.le_zero.mp h
    subst this
    rfl
  | succ f ih =>
    intro n h
    match n with
    | 0 => rfl
    | m + 1 =>
      have hdiv : (m + 1) / 10 ≤ f := by
        have := Nat.div_lt_self (Nat.succ_pos m) (by omega : 1 < 10)
        omega
      simp only [natDecAux, valLSF, ih _ hdiv]
      omega

theorem natDecBytes_injective : Function.Injective natDecBytes := by
  have key : ∀ n, valLSF (natDecBytes n).reverse = n := by
    intro n
    by_cases h : n = 0
    · subst h; rfl
    · simp only [natDecBytes, if_neg h, List.reverse_reverse]
      exact valLSF_natDecAux n n le_rfl
  intro a b hab
  have := key a
  rw [hab, key b] at this
  exact this.symm

theorem natDecAux_mem : ∀ fuel n d, d ∈ natDecAux fuel n → 48 ≤ d ∧ d ≤ 57 := by
  intro fuel
  induction fuel with
  | zero => intro n d h; simp [natDecAux] at h
  | succ f ih =>
    intro n d h
    match n with
    | 0 => simp [natDecAux] at h
    | m + 1 =>
      simp only [natDecAux, List.mem_cons] at h
      rcases h with h | h
      · have : (m + 1) % 10 < 10 := Nat.mod_lt _ (by omega)
        omega
      · exact ih _ _ h

theorem natDecBytes_mem {n d : Nat} (h : d ∈ natDecBytes n) : 48 ≤ d ∧ d ≤ 57 := by
  by_cases h0 : n = 0
  · subst h0; simp [natDecBytes] at h; omega
  · simp only [natDecBytes, if_neg h0, List.mem_reverse] at h
    exact natDecAux_mem n n d h

theorem natDecBytes_ne_nil (n : Nat) : natDecBytes n ≠ [] := by
  by_cases h0 : n = 0
  · subst h0; simp [natDecBytes]
  · simp only [natDecBytes, if_neg h0, ne_eq, List.reverse_eq_nil_iff]
    match n, h0 with
    | m + 1, _ => simp [natDecAux]

theorem intDecBytes_mem {i : Int} {d : Nat} (h : d ∈ intDecBytes i) :
    d = 45 ∨ (48 ≤ d ∧ d ≤ 57) := by
  by_cases hneg : i < 0
  · simp only [intDecBytes, if_pos hneg, List.mem_cons] at h
    rcases h with h | h
    · exact Or.inl h
    · exact Or.inr (natDecBytes_mem h)
  · simp only [intDecBytes, if_neg hneg] at h
    exact Or.inr (natDecBytes_mem h)

theorem intDecBytes_injective : Function.Injective intDecBytes := by
  intro a b hab
  have head : ∀ n, ∃ d t, natDecBytes n = d :: t ∧ 48 ≤ d ∧ d ≤ 57 := by
    intro n
    match hnd : natDecBytes n with
    | [] => exact absurd hnd (natDecBytes_ne_nil n)
    | d :: t =>
      have hd := natDecBytes_mem (n := n) (d := d) (by rw [hnd]; exact List.mem_cons_self _ _)
      exact ⟨d, t, rfl, hd⟩
  by_cases ha : a < 0 <;> by_cases hb : b < 0
  · simp only [intDecBytes, if_pos ha, if_pos hb, List.cons.injEq] at hab
    have := natDecBytes_injective hab.2
    omega
  · obtain ⟨d, t, hdt, hd1, hd2⟩ := head b.natAbs
    simp only [intDecBytes, if_pos ha, if_neg hb, hdt, List.cons.injEq] at hab
    omega
  · obtain ⟨d, t, hdt, hd1, hd2⟩ := head a.natAbs
    simp only [intDecBytes, if_neg ha, if_pos hb, hdt, List.cons.injEq] at hab
    omega
  · simp only [intDecBytes, if_neg ha, if_neg hb] at hab
    have := natDecBytes_injective hab
    omega

/-! ## Splitting at a delimiter byte -/

theorem split_at_delim {d : Nat} :
    ∀ {x₁ x₂ r₁ r₂ : List Nat}, d ∉ x₁ → d ∉ x₂ →
      x₁ ++ d :: r₁ = x₂ ++ d :: r₂ → x₁ = x₂ ∧ r₁ = r₂ := by
  intro x₁
  induction x₁ with
  | nil =>
    intro x₂ r₁ r₂ _ h₂ heq
    match x₂ with
    | [] => simpa using heq
    | b :: t =>
      simp only [List.nil_append, List.cons_append, List.cons.injEq] at heq
      exact absurd (heq.1 ▸ List.mem_cons_self b t) h₂
  | cons a t ih =>
    intro x₂ r₁ r₂ h₁ h₂ heq
    match x₂ with
    | [] =>
      simp only [List.cons_append, List.nil_append, List.cons.injEq] at heq
      exact absurd (heq.1 ▸ List.mem_cons_self a t) h₁
    | b :: t₂ =>
      simp only [List.cons_append, List.cons.injEq] at heq
      have h₁' : d ∉ t := fun h => h₁ (List.mem_cons_of_mem a h)
      have h₂' : d ∉ t₂ := fun h => h₂ (List.mem_cons_of_mem b h)
      obtain ⟨he, hr⟩ := ih h₁' h₂' heq.2
      exact ⟨by rw [heq.1, he], hr⟩

/-! ## A decoder for Go-JSON quoted strings

Left inverse of the escaping encoder, used to derive that `json.Marshal`'s
string encoding is injective and consumes exactly up to its closing quote.
Returns the decoded code points and the bytes after the closing quote. -/

/-- Value of a lowercase hex digit byte. -/
def hexVal (b : Nat) : Nat := if b ≤ 57 then b - 48 else b - 87

/-- Decode one escaped character of a Go-JSON string: given the first byte
and the following bytes, return the code point and the unconsumed tail
(`none` on malformed input; the closing quote is handled by the caller). -/
def decStep (b : Nat) (rest : List Nat) : Option (Nat × List Nat) :=
  if b = 92 then
    match rest with
    | [] => none
    | e :: rest2 =>
      if e = 117 then
        match rest2 with
        | h1 :: h2 :: h3 :: h4 :: r =>
          some (hexVal h1 * 4096 + hexVal h2 * 256 + hexVal h3 * 16 + hexVal h4, r)
        | _ => none
      else if e = 34 then some (34, rest2)
      else if e = 92 then some (92, rest2)
      else if e = 110 then some (10, rest2)
      else if e = 114 then some (13, rest2)
      else if e = 116 then some (9, rest2)
      else none
  else if b < 128 then some (b, rest)
  else if b < 224 then
    match rest with
    | b1 :: r => some ((b - 192) * 64 + (b1 - 128), r)
    | [] => none
  else if b < 240 then
    match rest with
    | b1 :: b2 :: r => some ((b - 224) * 4096 + (b1 - 128) * 64 + (b2 - 128), r)
    | _ => none
  else
    match rest with
    | b1 :: b2 :: b3 :: r =>
      some ((b - 240) * 262144 + (b1 - 128) * 4096 + (b2 - 128) * 64 + (b3 - 128), r)
    | _ => none

/-- Decode the body of a Go-JSON quoted string up to its closing quote,
returning the code points and the bytes after the quote. Fuel-based (one
unit per decoded character) so the recursion is structural. -/
def decJsonStrF : Nat → List Nat → Option (List Nat × List Nat)
  | 0, _ => none
  | _, [] => none
  | fuel + 1, b :: rest =>
    if b = 34 then some ([], rest)
    else
      match decStep b rest with
      | none => none
      | some (c, r) => (fun p => (c :: p.1, p.2)) <$> decJsonStrF fuel r

theorem hexVal_hexByte {x : Nat} (h : x < 16) : hexVal (hexByte x) = x := by
  unfold hexVal hexByte
  by_cases h10 : x < 10 <;> simp [h10] <;> omega

theorem char_toNat_lt (c : Char) : c.toNat < 1114112 := by
  have h : c.val.toNat.isValidChar := c.valid
  simp only [Nat.isValidChar] at h
  have : c.toNat = c.val.toNat := rfl
  rcases h with h | ⟨_, h⟩ <;> omega

theorem decStep_escChar (c : Char) (r : List Nat) :
    ∃ b rest, escChar c ++ r = b :: rest ∧ b ≠ 34 ∧ decStep b rest = some (c.toNat, r) := by
  have hlt : c.toNat < 1114112 := char_toNat_lt c
  unfold escChar
  by_cases h34 : c.toNat = 34
  · exact ⟨92, 34 :: r, by simp [h34], by omega, by simp [decStep, h34]⟩
  by_cases h92 : c.toNat = 92
  · exact ⟨92, 92 :: r, by simp [h34, h92], by omega, by simp [decStep, h92]⟩
  by_cases h10 : c.toNat = 10
  · exact ⟨92, 110 :: r, by simp [h34, h92, h10], by omega, by simp [decStep, h10]⟩
  by_cases h13 : c.toNat = 13
  · exact ⟨92, 114 :: r, by simp [h34, h92, h10, h13], by omega, by simp [decStep, h13]⟩
  by_cases h9 : c.toNat = 9
  · exact ⟨92, 116 :: r, by simp [h34, h92, h10, h13, h9], by omega, by simp [decStep, h9]⟩
  by_cases hctl : c.toNat < 32 ∨ c.toNat = 38 ∨ c.toNat = 60 ∨ c.toNat = 62
  · refine ⟨92, 117 :: 48 :: 48 :: hexByte (c.toNat / 16) :: hexByte (c.toNat % 16) :: r,
      by simp [h34, h92, h10, h13, h9, hctl], by omega, ?_⟩
    simp only [decStep, reduceIte]
    rw [hexVal_hexByte (by omega), hexVal_hexByte (Nat.mod_lt _ (by omega))]
    have h48 : hexVal 48 = 0 := by decide
    rw [h48]
    congr 2
    omega
  by_cases hls : c.toNat = 8232 ∨ c.toNat = 8233
  · refine ⟨92, 117 :: 50 :: 48 :: 50 :: hexByte (c.toNat % 16) :: r,
      by simp [h34, h92, h10, h13, h9, hctl, hls], by omega, ?_⟩
    simp only [decStep, reduceIte]
    rw [hexVal_hexByte (Nat.mod_lt _ (by omega))]
    have h50 : hexVal 50 = 2 := by decide
    have h48 : hexVal 48 = 0 := by decide
    rw [h50, h48]
    congr 2
    rcases hls with h | h <;> rw [h]
  · simp only [h34, h92, h10, h13, h9, hctl, hls, if_neg, if_false]
    unfold utf8Char
    by_cases h128 : c.toNat < 128
    · refine ⟨c.toNat, r, by simp [h128], h34, ?_⟩
      have c1 : ¬(c.toNat = 92) := h92
      simp [decStep, c1, h128]
    · by_cases h2048 : c.toNat < 2048
      · refine ⟨192 + c.toNat / 64, (128 + c.toNat % 64) :: r, by simp [h128, h2048], by omega, ?_⟩
        have c1 : ¬(192 + c.toNat / 64 = 92) := by omega
        have c2 : ¬(192 + c.toNat / 64 < 128) := by omega
        have c3 : 192 + c.toNat / 64 < 224 := by omega
        simp only [decStep, c1, c2, c3, if_true, if_false, ite_false, reduceIte]
        congr 2
        omega
      · by_cases h65536 : c.toNat < 65536
        · refine ⟨224 + c.toNat / 4096, (128 + c.toNat / 64 % 64) :: (128 + c.toNat % 64) :: r,
            by simp [h128, h2048, h65536], by omega, ?_⟩
          have c1 : ¬(224 + c.toNat / 4096 = 92) := by omega
          have c2 : ¬(224 + c.toNat / 4096 < 128) := by omega
          have c3 : ¬(224 + c.toNat / 4096 < 224) := by omega
          have c4 : 224 + c.toNat / 4096 < 240 := by omega
          simp only [decStep, c1, c2, c3, c4, if_true, if_false, ite_false, reduceIte]
          congr 2
          omega
        · refine ⟨240 + c.toNat / 262144,
            (128 + c.toNat / 4096 % 64) :: (128 + c.toNat / 64 % 64) :: (128 + c.toNat % 64) :: r,
            by simp [h128, h2048, h65536], by omega, ?_⟩
          have c1 : ¬(240 + c.toNat / 262144 = 92) := by omega
          have c2 : ¬(240 + c.toNat / 262144 < 128) := by omega
          have c3 : ¬(240 + c.toNat / 262144 < 224) := by omega
          have c4 : ¬(240 + c.toNat / 262144 < 240) := by omega
          simp only [decStep, c1, c2, c3, c4, if_true, if_false, ite_false, reduceIte]
          congr 2
          omega

theorem decJsonStrF_escChar (fuel : Nat) (c : Char) (r : List Nat) :
    decJsonStrF (fuel + 1) (escChar c ++ r) =
      (fun p => (c.toNat :: p.1, p.2)) <$> decJsonStrF fuel r := by
  obtain ⟨b, rest, heq, hb34, hstep⟩ := decStep_escChar c r
  rw [heq]
  simp only [decJsonStrF, if_neg hb34, hstep]

theorem decJsonStrF_quoted (l : List Char) :
    ∀ (fuel : Nat) (r : List Nat), l.length < fuel →
      decJsonStrF fuel (l.flatMap escChar ++ 34 :: r) = some (l.map Char.toNat, r) := by
  induction l with
  | nil =>
    intro fuel r h
    match fuel, h with
    | f + 1, _ => simp [decJsonStrF]
  | cons c t ih =>
    intro fuel r h
    match fuel, h with
    | f + 1, h =>
      simp only [List.flatMap_cons, List.append_assoc]
      rw [decJsonStrF_escChar f c _, ih f r (by simpa using Nat.lt_of_succ_lt_succ h)]
      simp

theorem char_toNat_injective : Function.Injective Char.toNat := by
  intro a b h
  have ha : Char.ofNat a.toNat = Char.ofNat b.toNat := by rw [h]
  rwa [Char.ofNat_toNat, Char.ofNat_toNat] at ha

/-- The JSON string encoder is injective and consumes exactly up to its
closing quote: equal encodings followed by arbitrary tails force both the
strings and the tails to agree. -/
theorem jsonQuote_append_inj {s₁ s₂ : String} {r₁ r₂ : List Nat}
    (h : jsonQuote s₁ ++ r₁ = jsonQuote s₂ ++ r₂) : s₁ = s₂ ∧ r₁ = r₂ := by
  simp only [jsonQuote, List.cons_append, List.append_assoc, List.cons.injEq,
    List.singleton_append, true_and] at h
  have hlen : s₁.data.length < s₁.data.length + s₂.data.length + 1 := by omega
  have hlen₂ : s₂.data.length < s₁.data.length + s₂.data.length + 1 := by omega
  have e₁ := decJsonStrF_quoted s₁.data (s₁.data.length + s₂.data.length + 1) r₁ hlen
  have e₂ := decJsonStrF_quoted s₂.data (s₁.data.length + s₂.data.length + 1) r₂ hlen₂
  have := congrArg (decJsonStrF (s₁.data.length + s₂.data.length + 1)) h
  rw [List.nil_append, List.nil_append, e₁, e₂] at this
  simp only [Option.some.injEq, Prod.mk.injEq] at this
  obtain ⟨hmap, hr⟩ := this
  have hdata : s₁.data = s₂.data :=
    (List.map_injective_iff.mpr char_toNat_injective) hmap
  refine ⟨?_, hr⟩
  cases s₁
  cases s₂
  exact congrArg String.mk (by simpa using hdata)

/-! ## Injectivity of `marshalCLI` in selected fields -/

theorem boolBytes_append_inj {b₁ b₂ : Bool} {x₁ x₂ : List Nat}
    (h : boolBytes b₁ ++ x₁ = boolBytes b₂ ++ x₂) : b₁ = b₂ ∧ x₁ = x₂ := by
  cases b₁ <;> cases b₂ <;> simp [boolBytes] at h ⊢ <;> exact h

theorem intDecBytes_no_comma (i : Int) : 44 ∉ intDecBytes i := by
  intro hmem
  rcases intDecBytes_mem hmem with h | h <;> omega

theorem intDec_comma_inj {i₁ i₂ : Int} {x₁ x₂ : List Nat}
    (h : intDecBytes i₁ ++ 44 :: x₁ = intDecBytes i₂ ++ 44 :: x₂) : i₁ = i₂ ∧ x₁ = x₂ := by
  obtain ⟨he, hr⟩ := split_at_delim (intDecBytes_no_comma i₁) (intDecBytes_no_comma i₂) h
  exact ⟨intDecBytes_injective he, hr⟩

/-- `json.Marshal` of the CLI determines the output-destination fields:
two configurations that agree on every field other than `Output`, `Stdout`
and `WriteIfChanged` and have equal marshalings are equal. -/
theorem marshalCLI_inj_dest {c₁ c₂ : CLI}
    (h5 : c₁.ExtStr = c₂.ExtStr) (h6 : c₁.ExtCode = c₂.ExtCode)
    (h7 : c₁.Timeout = c₂.Timeout) (h8 : c₁.Cache = c₂.Cache)
    (h9 : c₁.Stale = c₂.Stale) (h10 : c₁.Version = c₂.Version)
    (h11 : c₁.Filename = c₂.Filename)
    (h : marshalCLI c₁ = marshalCLI c₂) : c₁ = c₂ := by
  obtain ⟨o₁, s₁, w₁, es₁, ec₁, t₁, ca₁, st₁, v₁, f₁⟩ := c₁
  obtain ⟨o₂, s₂, w₂, es₂, ec₂, t₂, ca₂, st₂, v₂, f₂⟩ := c₂
  simp only at h5 h6 h7 h8 h9 h10 h11
  subst h5 h6 h7 h8 h9 h10 h11
  unfold marshalCLI at h
  simp only [List.append_assoc] at h
  replace h := List.append_cancel_left h
  obtain ⟨hO, h⟩ := jsonQuote_append_inj h
  replace h := List.append_cancel_left h
  obtain ⟨hS, h⟩ := boolBytes_append_inj h
  replace h := List.append_cancel_left h
  obtain ⟨hW, _⟩ := boolBytes_append_inj h
  rw [hO, hS, hW]

/-- `json.Marshal` of the CLI determines the three duration fields: two
configurations that agree on every field other than `Timeout`, `Cache` and
`Stale` and have equal marshalings are equal. -/
theorem marshalCLI_inj_durations {c₁ c₂ : CLI}
    (h1 : c₁.Output = c₂.Output) (h2 : c₁.Stdout = c₂.Stdout)
    (h3 : c₁.WriteIfChanged = c₂.WriteIfChanged) (h4 : c₁.ExtStr = c₂.ExtStr)
    (h5 : c₁.ExtCode = c₂.ExtCode) (h10 : c₁.Version = c₂.Version)
    (h11 : c₁.Filename = c₂.Filename)
    (h : marshalCLI c₁ = marshalCLI c₂) : c₁ = c₂ := by
  obtain ⟨o₁, s₁, w₁, es₁, ec₁, t₁, ca₁, st₁, v₁, f₁⟩ := c₁
  obtain ⟨o₂, s₂, w₂, es₂, ec₂, t₂, ca₂, st₂, v₂, f₂⟩ := c₂
  simp only at h1 h2 h3 h4 h5 h10 h11
  subst h1 h2 h3 h4 h5 h10 h11
  unfold marshalCLI at h
  simp only [List.append_assoc] at h
  replace h := List.append_cancel_left h
  replace h := List.append_cancel_left h
  replace h := List.append_cancel_left h
  replace h := List.append_cancel_left h
  replace h := List.append_cancel_left h
  replace h := List.append_cancel_left h
  replace h := List.append_cancel_left h
  replace h := List.append_cancel_left h
  replace h := List.append_cancel_left h
  replace h := List.append_cancel_left h
  replace h := List.append_cancel_left h
  have hLC : strBytes ",\"Cache\":" = 44 :: strBytes "\"Cache\":" := by decide
  rw [hLC] at h
  simp only [List.cons_append, List.append_assoc] at h
  obtain ⟨hT, h⟩ := intDec_comma_inj h
  replace h := List.append_cancel_left h
  have hLS : strBytes ",\"Stale\":" = 44 :: strBytes "\"Stale\":" := by decide
  rw [hLS] at h
  simp only [List.cons_append, List.append_assoc] at h
  obtain ⟨hCa, h⟩ := intDec_comma_inj h
  replace h := List.append_cancel_left h
  replace h := List.append_cancel_right h
  have hSt := intDecBytes_injective h
  rw [hT, hCa, hSt]

/-! ## `json.Marshal` map encoding is iteration-order independent -/

theorem insertionSort_eq_of_perm {l₁ l₂ : List (String × String)}
    (hperm : l₁.Perm l₂) (hnd : l₁.Pairwise (fun a b => a.1 ≠ b.1)) :
    List.insertionSort keyLE l₁ = List.insertionSort keyLE l₂ := by
  have hnd₂ : l₂.Pairwise (fun a b => a.1 ≠ b.1) := (hperm.pairwise_iff (fun h => Ne.symm h)).mp hnd
  have hp₁ : (List.insertionSort keyLE l₁).Perm l₁ := List.perm_insertionSort keyLE l₁
  have hp₂ : (List.insertionSort keyLE l₂).Perm l₂ := List.perm_insertionSort keyLE l₂
  have hs₁ : (List.insertionSort keyLE l₁).Sorted keyLE := List.sorted_insertionSort keyLE l₁
  have hs₂ : (List.insertionSort keyLE l₂).Sorted keyLE := List.sorted_insertionSort keyLE l₂
  have hnds₁ : (List.insertionSort keyLE l₁).Pairwise (fun a b => a.1 ≠ b.1) :=
    (hp₁.pairwise_iff (fun h => Ne.symm h)).mpr hnd
  have hnds₂ : (List.insertionSort keyLE l₂).Pairwise (fun a b => a.1 ≠ b.1) :=
    (hp₂.pairwise_iff (fun h => Ne.symm h)).mpr hnd₂
  have hstrict₁ : (List.insertionSort keyLE l₁).Sorted (fun a b => a.1 < b.1) :=
    (hs₁.and hnds₁).imp (fun h => lt_of_le_of_ne h.1 h.2)
  have hstrict₂ : (List.insertionSort keyLE l₂).Sorted (fun a b => a.1 < b.1) :=
    (hs₂.and hnds₂).imp (fun h => lt_of_le_of_ne h.1 h.2)
  exact List.eq_of_perm_of_sorted (hp₁.trans (hperm.trans hp₂.symm)) hstrict₁ hstrict₂

theorem jsonMapBytes_perm {l₁ l₂ : List (String × String)}
    (hperm : l₁.Perm l₂) (hnd : l₁.Pairwise (fun a b => a.1 ≠ b.1)) :
    jsonMapBytes l₁ = jsonMapBytes l₂ := by
  cases l₁ with
  | nil =>
    rw [← hperm.nil_eq]
  | cons a t =>
    cases l₂ with
    | nil => exact absurd hperm.symm.nil_eq (by simp)
    | cons b u =>
      simp only [jsonMapBytes]
      rw [insertionSort_eq_of_perm hperm hnd]

/-! ## Claim theorems -/

/-- C1, counterexample: the claim says two requests identical except in the
output-destination fields (`Output`, `Stdout`, `WriteIfChanged`) always get
the same cache key; but `GenerateCacheKey` feeds `json.Marshal` of the whole
CLI struct — destination fields included — to SHA-256, so this concrete pair
differing only in `Output` gets different keys. -/
theorem c1_counterexample :
    GenerateCacheKey "/work" cliBase [49] ≠
      GenerateCacheKey "/work" { cliBase with Output := "out.json" } [49] := by
  decide

/-- C1, amended: changing any output-destination field (the destination
string, the also-write-to-stdout flag, or the write-if-changed flag) with
everything else fixed always changes the cache-key pre-image, hence changes
the key except in the event of a SHA-256 collision on the two pre-images. -/
theorem c1_amended (c₁ c₂ : CLI) (content : List Nat) (cwd : String)
    (h5 : c₁.ExtStr = c₂.ExtStr) (h6 : c₁.ExtCode = c₂.ExtCode)
    (h7 : c₁.Timeout = c₂.Timeout) (h8 : c₁.Cache = c₂.Cache)
    (h9 : c₁.Stale = c₂.Stale) (h10 : c₁.Version = c₂.Version)
    (h11 : c₁.Filename = c₂.Filename) (hne : c₁ ≠ c₂) :
    cacheKeyPreimage cwd c₁ content ≠ cacheKeyPreimage cwd c₂ content := by
  intro h
  apply hne
  unfold cacheKeyPreimage at h
  rw [h11] at h
  exact marshalCLI_inj_dest h5 h6 h7 h8 h9 h10 h11
    (List.append_cancel_right (List.append_cancel_right h))

theorem c1_amended_witness :
    cacheKeyPreimage "/work" cliBase [49] ≠
      cacheKeyPreimage "/work" { cliBase with Stdout := true } [49] :=
  c1_amended cliBase { cliBase with Stdout := true } [49] "/work" rfl rfl rfl rfl rfl rfl rfl
    (by decide)

/-- C2, counterexample: with `ttl = 1`, `staleExtension = 3` (nanoseconds)
and a read at age `ε = 4` — inside the claim's stale window
`ttl < ε ≤ ttl + staleExtension` with `staleExtension > 0` — the code
compares the age against `staleTTL` absolutely (src/cache.go:116), treats
the entry as fully expired, removes it and reports it absent, not stale. -/
theorem c2_counterexample :
    (1 : Int) < 4 ∧ (4 : Int) ≤ 1 + 3 ∧ (0 : Int) < 3 ∧
      GetWithStale ⟨1, 3⟩ (some ("cached", 0)) 4 = ("", false, false, none) := by
  decide

/-- C2, amended: for an entry written at `T` and read at `T + ε` with
`ttl > 0`: fresh when `ε ≤ ttl`; stale when `ttl < ε ≤ staleTTL` and
`staleTTL > 0` (the stale window is bounded by the absolute `staleTTL`
value, not by `ttl + staleTTL`); otherwise absent with the entry removed. -/
theorem c2_amended (c : CacheCfg) (content : String) (T ε : Int) (httl : 0 < c.ttl) :
    (ε ≤ c.ttl →
      GetWithStale c (some (content, T)) (T + ε) = (content, false, true, some (content, T))) ∧
    (c.ttl < ε → 0 < c.staleTTL → ε ≤ c.staleTTL →
      GetWithStale c (some (content, T)) (T + ε) = (content, true, true, some (content, T))) ∧
    (c.ttl < ε → (c.staleTTL ≤ 0 ∨ c.staleTTL < ε) →
      GetWithStale c (some (content, T)) (T + ε) = ("", false, false, none)) := by
  unfold GetWithStale
  have hne : ¬(c.ttl = 0) := by omega
  have hage : T + ε - T = ε := by omega
  simp only [hne, if_false, hage]
  refine ⟨fun h => ?_, fun h1 h2 h3 => ?_, fun h1 h2 => ?_⟩
  · simp [h]
  · have : ¬(ε ≤ c.ttl) := by omega
    simp [this, h2, h3]
  · have hle : ¬(ε ≤ c.ttl) := by omega
    have hst : ¬(0 < c.staleTTL ∧ ε ≤ c.staleTTL) := by omega
    simp [hle, hst]

theorem c2_amended_witness :
    GetWithStale ⟨2, 5⟩ (some ("x", 0)) (0 + 3) = ("x", true, true, some ("x", 0)) :=
  (c2_amended ⟨2, 5⟩ "x" 0 3 (by decide)).2.1 (by decide) (by decide) (by decide)

/-- C4: whenever `writeFileAtomic` returns an error — any of its six
fallible steps failing — the target file's content and modification time
are exactly as before the call (the target is never touched before the
rename), and no temporary file remains. -/
theorem c4_atomic_failure (st : FileSt) (data : List Nat) (o : AtomicOracle) (now : Int)
    (e : String) (htemp : st.temp = none)
    (h : (writeFileAtomic st data o now).2 = some e) :
    (writeFileAtomic st data o now).1.target = st.target ∧
    (writeFileAtomic st data o now).1.targetMtime = st.targetMtime ∧
    (writeFileAtomic st data o now).1.temp = none := by
  obtain ⟨c, w, s, ch, cl, r⟩ := o
  obtain ⟨tg, mt, tmp⟩ := st
  simp only at htemp
  subst htemp
  cases c <;> cases w <;> cases s <;> cases ch <;> cases cl <;> cases r <;>
    simp_all [writeFileAtomic]

theorem c4_atomic_failure_witness :
    (writeFileAtomic ⟨some [1, 2], 7, none⟩ [3] ⟨true, true, true, true, true, false⟩ 9).1.target
        = some [1, 2] ∧
      (writeFileAtomic ⟨some [1, 2], 7, none⟩ [3] ⟨true, true, true, true, true, false⟩ 9).1.targetMtime
        = 7 ∧
      (writeFileAtomic ⟨some [1, 2], 7, none⟩ [3] ⟨true, true, true, true, true, false⟩ 9).1.temp
        = none :=
  c4_atomic_failure ⟨some [1, 2], 7, none⟩ [3] ⟨true, true, true, true, true, false⟩ 9
    "rename" rfl (by decide)

/-- C3, counterexample: evaluation fails and the cache lookup did find a
stale entry, but the entry's content is the empty string; the fallback
guard `staleContent != ""` (src/main.go:227) does not fire, so the run
reports the evaluation error instead of succeeding with stale content. -/
theorem c3_counterexample :
    processRequest cliBase true
        { inputErr := none, keygen := .ok "k", lookup := ("", true, true),
          evalResult := .error "eval boom", setErr := none, writeErr := none } =
      ({ jsonStr := "", err := some "eval boom" }, []) := by
  decide

/-- C3, amended: when evaluation fails, the lookup found a stale entry with
non-empty content, and delivery succeeds, the run logs the degradation
warning naming the evaluation error, delivers content byte-identical to the
stale entry, and reports success — never the evaluation error. -/
theorem c3_amended (cli : CLI) (env : RunEnv) (key content e : String)
    (hin : env.inputErr = none) (hk : env.keygen = .ok key)
    (hl : env.lookup = (content, true, true)) (hne : content ≠ "")
    (hev : env.evalResult = .error e) (hw : env.writeErr = none) :
    processRequest cli true env =
      ({ jsonStr := content, err := none }, [.staleFallback e]) := by
  by_cases hf : cli.Filename = "-" <;>
    simp [processRequest, processRequestCore, evalAndDeliver, hf, hin, hk, hl, hev, hw, hne]

theorem c3_amended_witness :
    processRequest cliBase true
        { inputErr := none, keygen := .ok "k", lookup := ("stale doc", true, true),
          evalResult := .error "eval boom", setErr := none, writeErr := none } =
      ({ jsonStr := "stale doc", err := none }, [.staleFallback "eval boom"]) :=
  c3_amended cliBase _ "k" "stale doc" "eval boom" rfl rfl rfl (by decide) rfl rfl

/-- C5: with the write-if-changed flag set and a file destination whose
current content is `old`: the skip decision is taken exactly when `old`'s
length equals the new content's length and their SHA-256 digests agree; a
skip leaves the file state (bytes and modification time) untouched without
invoking the atomic writer; byte-identical content always skips; and
same-length content whose digest differs is written through the atomic
writer, updating content and modification time. -/
theorem c5_change_skip (cli : CLI) (st : FileSt) (old : List Nat) (jsonStr : String)
    (o : AtomicOracle) (now : Int) (we : Option String)
    (hwic : cli.WriteIfChanged = true) (hout : cli.Output ≠ "")
    (hexist : st.target = some old) :
    ((writeOutput cli st jsonStr o now we).2.2 = false ↔
      (old.length = (strBytes jsonStr).length ∧ sha256 old = sha256 (strBytes jsonStr))) ∧
    ((writeOutput cli st jsonStr o now we).2.2 = false →
      writeOutput cli st jsonStr o now we = (st, none, false)) ∧
    (old = strBytes jsonStr → writeOutput cli st jsonStr o now we = (st, none, false)) ∧
    (sha256 old ≠ sha256 (strBytes jsonStr) →
      writeOutput cli st jsonStr oracleOK now we =
        ({ target := some (strBytes jsonStr), targetMtime := now, temp := none }, none, true)) := by
  unfold writeOutput shouldSkipWrite
  rw [hexist, hwic]
  have ho : ¬(cli.Output = "") := hout
  by_cases hlen : old.length = (strBytes jsonStr).length
  · by_cases hsha : sha256 old = sha256 (strBytes jsonStr)
    · have hbeq : (sha256 old == sha256 (strBytes jsonStr)) = true := by simpa using hsha
      simp [ho, hlen, hbeq, hsha]
    · have hbeq : (sha256 old == sha256 (strBytes jsonStr)) = false := by simpa using hsha
      refine ⟨?_, ?_, ?_, ?_⟩
      · simp [ho, hlen, hbeq, hsha]
      · simp [ho, hlen, hbeq]
      · intro hold
        exact absurd (by rw [hold]) hsha
      · intro _
        simp [ho, hlen, hbeq, writeFileAtomic, oracleOK]
  · have hne : old ≠ strBytes jsonStr := fun hc => hlen (by rw [hc])
    refine ⟨?_, ?_, ?_, ?_⟩
    · simp [ho, hlen]
    · simp [ho, hlen]
    · intro hold
      exact absurd hold hne
    · intro _
      simp [ho, hlen, writeFileAtomic, oracleOK]

theorem c5_change_skip_witness :
    ((writeOutput { cliBase with Output := "o", WriteIfChanged := true }
        ⟨some [48], 7, none⟩ "1" oracleOK 9 none).2.2 = false ↔
      ([48].length = (strBytes "1").length ∧ sha256 [48] = sha256 (strBytes "1"))) ∧
    ((writeOutput { cliBase with Output := "o", WriteIfChanged := true }
        ⟨some [48], 7, none⟩ "1" oracleOK 9 none).2.2 = false →
      writeOutput { cliBase with Output := "o", WriteIfChanged := true }
        ⟨some [48], 7, none⟩ "1" oracleOK 9 none = (⟨some [48], 7, none⟩, none, false)) ∧
    ([48] = strBytes "1" →
      writeOutput { cliBase with Output := "o", WriteIfChanged := true }
        ⟨some [48], 7, none⟩ "1" oracleOK 9 none = (⟨some [48], 7, none⟩, none, false)) ∧
    (sha256 [48] ≠ sha256 (strBytes "1") →
      writeOutput { cliBase with Output := "o", WriteIfChanged := true }
        ⟨some [48], 7, none⟩ "1" oracleOK 9 none =
        ({ target := some (strBytes "1"), targetMtime := 9, temp := none }, none, true)) :=
  c5_change_skip { cliBase with Output := "o", WriteIfChanged := true }
    ⟨some [48], 7, none⟩ [48] "1" oracleOK 9 none rfl (by decide) rfl

theorem timeout_msg_ne_canceled (s : String) :
    "evaluation timed out after " ++ s ≠ "context canceled" := by
  intro h
  have hd := congrArg String.data h
  have h1 : ("evaluation timed out after " ++ s).data
      = 'e' :: ("valuation timed out after ".data ++ s.data) := rfl
  have h2 : ("context canceled" : String).data = 'c' :: "ontext canceled".data := rfl
  rw [h1, h2] at hd
  have := List.head_eq_of_cons_eq hd
  exact absurd this (by decide)

/-- C6: with a timeout configured, if the deadline fires before the
background task (which runs the whole of `processRequest`: input read,
evaluation and delivery) completes, the run never returns success; when the
context reports deadline-exceeded the error message is exactly
`evaluation timed out after <Timeout>` with the configured duration
rendered by Go's `Duration.String`, and that message is distinct from the
plain-cancellation error. -/
theorem c6_deadline (cli : CLI) (cacheEnabled : Bool) (env : RunEnv) (cause : CtxErr)
    (_htimeout : 0 < cli.Timeout) :
    (runCLI cli cacheEnabled env false cause ≠ none) ∧
    (cause = CtxErr.deadlineExceeded →
      runCLI cli cacheEnabled env false cause =
        some ("evaluation timed out after " ++ goDurationString cli.Timeout)) ∧
    (∀ msg, runCLI cli cacheEnabled env false CtxErr.deadlineExceeded = some msg →
      msg ≠ ctxErrMsg CtxErr.canceled) := by
  refine ⟨?_, ?_, ?_⟩
  · cases cause <;> simp [runCLI, runSelect, ctxErrMsg]
  · intro hc
    subst hc
    simp [runCLI, runSelect]
  · intro msg hmsg
    simp [runCLI, runSelect] at hmsg
    rw [← hmsg]
    exact timeout_msg_ne_canceled _

theorem c6_deadline_witness :
    runCLI { cliBase with Timeout := 30000000000 } false
        { inputErr := none, keygen := .ok "k", lookup := ("", false, false),
          evalResult := .ok "doc", setErr := none, writeErr := none }
        false CtxErr.deadlineExceeded =
      some ("evaluation timed out after " ++
        goDurationString ({ cliBase with Timeout := 30000000000 } : CLI).Timeout) :=
  (c6_deadline { cliBase with Timeout := 30000000000 } false
      { inputErr := none, keygen := .ok "k", lookup := ("", false, false),
        evalResult := .ok "doc", setErr := none, writeErr := none }
      CtxErr.deadlineExceeded (by decide)).2.1 rfl

/-- C7: cache errors never change a run's outcome. A key-generation failure
is logged and yields exactly the cache-disabled run's result (caching is
disabled for that run only); on a cache miss with successful evaluation, a
failure of the cache persist is logged but the run still delivers the
evaluated document and reports the delivery outcome, independent of the
persist error. -/
theorem c7_cache_errors_nonfatal (cli : CLI) (env : RunEnv) (hin : env.inputErr = none) :
    (∀ e, env.keygen = .error e →
      processRequest cli true env =
        ((processRequest cli false env).1,
          .keygenFailed e :: (processRequest cli false env).2)) ∧
    (∀ key j, env.keygen = .ok key → env.lookup.2.2 = false → env.evalResult = .ok j →
      (processRequest cli true env).1 = { jsonStr := j, err := env.writeErr } ∧
      (processRequest cli true env).2 =
        (match env.setErr with
          | some se => [LogEvent.cacheSetFailed se]
          | none => [])) := by
  constructor
  · intro e hkg
    by_cases hf : cli.Filename = "-" <;>
      simp [processRequest, processRequestCore, hf, hin, hkg]
  · intro key j hk hmiss hev
    rcases hlook : env.lookup with ⟨lc, ls, lex⟩
    rw [hlook] at hmiss
    simp only at hmiss
    subst hmiss
    rcases hset : env.setErr with _ | se <;>
      by_cases hf : cli.Filename = "-" <;>
        simp [processRequest, processRequestCore, evalAndDeliver, hf, hin, hk, hlook, hev, hset]

theorem c7_cache_errors_nonfatal_witness :
    processRequest cliBase true
        { inputErr := none, keygen := .error "marshal fail", lookup := ("", false, false),
          evalResult := .ok "doc", setErr := none, writeErr := none } =
      ((processRequest cliBase false
          { inputErr := none, keygen := .error "marshal fail", lookup := ("", false, false),
            evalResult := .ok "doc", setErr := none, writeErr := none }).1,
        .keygenFailed "marshal fail" ::
          (processRequest cliBase false
            { inputErr := none, keygen := .error "marshal fail", lookup := ("", false, false),
              evalResult := .ok "doc", setErr := none, writeErr := none }).2) :=
  (c7_cache_errors_nonfatal cliBase _ rfl).1 "marshal fail" rfl

/-- C8: `GenerateCacheKey` is insensitive to the iteration order of the
external-variable maps: `json.Marshal` sorts map keys, so two requests
whose `ExtStr`/`ExtCode` association lists are permutations of each other
(with the distinct keys a Go map guarantees) and agree on every other field
and on the content get identical keys. -/
theorem c8_key_order_independent (c₁ c₂ : CLI) (content : List Nat) (cwd : String)
    (h1 : c₁.Output = c₂.Output) (h2 : c₁.Stdout = c₂.Stdout)
    (h3 : c₁.WriteIfChanged = c₂.WriteIfChanged)
    (hps : c₁.ExtStr.Perm c₂.ExtStr)
    (hnds : c₁.ExtStr.Pairwise (fun a b => a.1 ≠ b.1))
    (hpc : c₁.ExtCode.Perm c₂.ExtCode)
    (hndc : c₁.ExtCode.Pairwise (fun a b => a.1 ≠ b.1))
    (h7 : c₁.Timeout = c₂.Timeout) (h8 : c₁.Cache = c₂.Cache) (h9 : c₁.Stale = c₂.Stale)
    (h10 : c₁.Version = c₂.Version) (h11 : c₁.Filename = c₂.Filename) :
    GenerateCacheKey cwd c₁ content = GenerateCacheKey cwd c₂ content := by
  unfold GenerateCacheKey cacheKeyPreimage marshalCLI
  rw [h1, h2, h3, h7, h8, h9, h10, h11,
    jsonMapBytes_perm hps hnds, jsonMapBytes_perm hpc hndc]

theorem c8_key_order_independent_witness :
    GenerateCacheKey "/work"
        { cliBase with ExtStr := [("b", "2"), ("a", "1")] } [49] =
      GenerateCacheKey "/work"
        { cliBase with ExtStr := [("a", "1"), ("b", "2")] } [49] :=
  c8_key_order_independent { cliBase with ExtStr := [("b", "2"), ("a", "1")] }
    { cliBase with ExtStr := [("a", "1"), ("b", "2")] } [49] "/work"
    rfl rfl rfl (by decide) (by decide) (by decide) (by decide) rfl rfl rfl rfl rfl

/-- C10: the duration fields are part of the hashed serialization: any
change to `Timeout`, `Cache` or `Stale` with all other fields fixed changes
the cache-key pre-image (universally), and for a concrete pair differing
only in `Timeout` the resulting keys differ. -/
theorem c10_durations_in_key :
    (∀ (c₁ c₂ : CLI) (content : List Nat) (cwd : String),
      c₁.Output = c₂.Output → c₁.Stdout = c₂.Stdout →
      c₁.WriteIfChanged = c₂.WriteIfChanged → c₁.ExtStr = c₂.ExtStr →
      c₁.ExtCode = c₂.ExtCode → c₁.Version = c₂.Version →
      c₁.Filename = c₂.Filename → c₁ ≠ c₂ →
      cacheKeyPreimage cwd c₁ content ≠ cacheKeyPreimage cwd c₂ content) ∧
    GenerateCacheKey "/work" cliBase [49] ≠
      GenerateCacheKey "/work" { cliBase with Timeout := 30000000000 } [49] := by
  constructor
  · intro c₁ c₂ content cwd h1 h2 h3 h4 h5 h10 h11 hne h
    apply hne
    unfold cacheKeyPreimage at h
    rw [h11] at h
    exact marshalCLI_inj_durations h1 h2 h3 h4 h5 h10 h11
      (List.append_cancel_right (List.append_cancel_right h))
  · decide

theorem c10_durations_in_key_witness :
    cacheKeyPreimage "/work" cliBase [49] ≠
      cacheKeyPreimage "/work" { cliBase with Cache := 60000000000 } [49] :=
  c10_durations_in_key.1 cliBase { cliBase with Cache := 60000000000 } [49] "/work"
    rfl rfl rfl rfl rfl rfl rfl (by decide)

/-- C9: the stale-fallback branch fires exactly for non-empty stale
content: when evaluation fails and the lookup found a stale entry whose
content is the empty string, the evaluation error is propagated and no
degradation warning is logged. -/
theorem c9_empty_stale_propagates (cli : CLI) (env : RunEnv) (key content e : String)
    (hin : env.inputErr = none) (hk : env.keygen = .ok key)
    (hl : env.lookup = (content, true, true)) (hev : env.evalResult = .error e) :
    (content = "" →
      processRequest cli true env = ({ jsonStr := "", err := some e }, [])) ∧
    (LogEvent.staleFallback e ∈ (processRequest cli true env).2 ↔ content ≠ "") := by
  constructor
  · intro hc
    subst hc
    by_cases hf : cli.Filename = "-" <;>
      simp [processRequest, processRequestCore, evalAndDeliver, hf, hin, hk, hl, hev]
  · by_cases hc : content = ""
    · subst hc
      by_cases hf : cli.Filename = "-" <;>
        simp [processRequest, processRequestCore, evalAndDeliver, hf, hin, hk, hl, hev]
    · by_cases hf : cli.Filename = "-" <;>
        simp [processRequest, processRequestCore, evalAndDeliver, hf, hin, hk, hl, hev, hc]

theorem c9_empty_stale_propagates_witness :
    processRequest cliBase true
        { inputErr := none, keygen := .ok "k", lookup := ("", true, true),
          evalResult := .error "boom", setErr := none, writeErr := none } =
      ({ jsonStr := "", err := some "boom" }, []) :=
  (c9_empty_stale_propagates cliBase _ "k" "" "boom" rfl rfl rfl rfl).1 rfl

end Armed
